import Mathlib

/-!
# Temporary storage arena (`src/misc/ts.h`)

A shallow embedding of the bump allocator of `ts.h`.

* `uint64_t` and `uintptr_t` values, and `void *` addresses, are natural numbers
  below `2 ^ 64`; every C operation that can leave that range is reduced modulo
  `2 ^ 64` (`add64`, `sub64`, `mul64`).  `NULL` is the address `0`.
* The global `g_temp_storage` is the record `TempStorage`, passed explicitly.
* A call either returns, or ends the process: through a failed `assert`
  (`Outcome.assert_failed`; `assert` is the active check of `<assert.h>`, no
  `NDEBUG`), or through the `exit(EXIT_FAILURE)` of `ts_assert_within_bounds`
  (`Outcome.exited`, carrying the two values handed to `fprintf`; `lld` gives the
  figure that `%lld` prints for such a value).  Both carry the storage as it is at
  that moment.
* The functions are embedded as sequential state passing: the atomic operations
  are read-modify-write steps on `used`, and the retry loop of `ts_alloc_aligned`
  is bounded by a fuel argument.
* Concurrent callers are the threads of a `World`: each step of a thread is one
  atomic operation on `used` (the load, the compare-and-swap, the fetch-and-add)
  with the thread-local code around it, and a schedule is the list of the
  threads that step.  The atomic operations on the one word `used` are totally
  ordered; `memory` and `size` are never written after `ts_init`.
-/

namespace Ts

/-! ## Machine arithmetic -/

/-- Unsigned 64-bit addition. -/
def add64 (a b : Nat) : Nat := (a + b) % 2 ^ 64

/-- Unsigned 64-bit subtraction. -/
def sub64 (a b : Nat) : Nat := (a + 2 ^ 64 - b % 2 ^ 64) % 2 ^ 64

/-- Unsigned 64-bit multiplication. -/
def mul64 (a b : Nat) : Nat := (a * b) % 2 ^ 64

/-- Conversion of an `int` to `uint64_t`. -/
def u64_of_int (i : Int) : Nat := (i % 2 ^ 64).toNat

/-- The address `MAP_FAILED`, `(void *) -1`. -/
def MAP_FAILED : Nat := 2 ^ 64 - 1

/-! ## The storage and the outcome of a call -/

/-- The global `g_temp_storage`. -/
structure TempStorage where
  memory : Nat
  size : Nat
  used : Nat
  deriving DecidableEq, Repr

/-- How a call ends: it returns a value, an `assert` fails, or
`ts_assert_within_bounds` prints its diagnostic and exits; `requested` and
`allocated` are the two 64-bit values handed to `fprintf`. -/
inductive Outcome (α : Type) where
  | returned (value : α) (s : TempStorage)
  | assert_failed (s : TempStorage)
  | exited (requested allocated : Nat) (s : TempStorage)
  deriving DecidableEq, Repr

/-- Sequencing: the rest of the function body runs only when the call returned. -/
def Outcome.bind {α β : Type} (o : Outcome α) (f : α → TempStorage → Outcome β) : Outcome β :=
  match o with
  | .returned v s => f v s
  | .assert_failed s => .assert_failed s
  | .exited r a s => .exited r a s

/-- The figure `fprintf` prints for a 64-bit argument under the conversion `%lld`:
the argument read as a signed 64-bit number. -/
def lld (v : Nat) : Int :=
  if v % 2 ^ 64 < 2 ^ 63 then ((v % 2 ^ 64 : Nat) : Int)
  else ((v % 2 ^ 64 : Nat) : Int) - 2 ^ 64

/-- The two figures of the diagnostic, as printed: `requested` and `allocated size`. -/
def Outcome.diagnostic {α : Type} : Outcome α → Option (Int × Int)
  | .exited requested allocated _ => some (lld requested, lld allocated)
  | _ => none

/-- The storage at the end of the call, however it ended. -/
def Outcome.storage {α : Type} : Outcome α → TempStorage
  | .returned _ s => s
  | .assert_failed s => s
  | .exited _ _ s => s

/-! ## The functions of `ts.h` -/

/-- `ts_init`: `page_size` is the value of `getpagesize()`, `mmap` gives the address
returned by the `mmap` call for a length (`MAP_FAILED` when it fails).  The
`mprotect` of the guard page changes nothing in the storage record. -/
def ts_init (page_size : Int) (mmap : Nat → Nat) (size : Nat) : Bool × TempStorage :=
  let ps := u64_of_int page_size
  let num_pages := size / ps
  let remainder := size % ps
  let num_pages := if remainder ≠ 0 then add64 num_pages 1 else num_pages
  let capacity := mul64 num_pages ps
  let memory := mmap (add64 capacity ps)
  let result := decide (memory ≠ MAP_FAILED)
  (result, { memory := memory, size := capacity, used := 0 })

/-- `ts_assert_within_bounds`; the exit carries the two arguments of the `fprintf`. -/
def ts_assert_within_bounds (size : Nat) (s : TempStorage) : Outcome Unit :=
  if size > s.size then .exited size s.size s else .returned () s

/-- `ts_align`. -/
def ts_align (used align : Nat) (s : TempStorage) : Outcome Nat :=
  if align &&& sub64 align 1 = 0 then
    let ptr := add64 s.memory used
    let a_ptr := align
    let mod := ptr &&& sub64 a_ptr 1
    let ptr := if mod ≠ 0 then add64 ptr (sub64 a_ptr mod) else ptr
    .returned (sub64 ptr s.memory) s
  else .assert_failed s

/-- `ts_alloc_aligned`: one unit of fuel per iteration of the `for (;;)` loop; `none`
when the fuel runs out before an iteration succeeds in its compare-and-swap. -/
def ts_alloc_aligned : Nat → Nat → Nat → TempStorage → Option (Outcome Nat)
  | 0, _, _, _ => none
  | fuel + 1, alignment, size, s =>
    let used := s.used
    match ts_align used alignment s with
    | .returned aligned s =>
      let new_used := add64 aligned size
      if s.used = used then
        let s := { s with used := new_used }
        some ((ts_assert_within_bounds new_used s).bind fun _ s =>
          .returned (add64 s.memory aligned) s)
      else ts_alloc_aligned fuel alignment size s
    | .assert_failed s => some (.assert_failed s)
    | .exited r a s => some (.exited r a s)

/-- `ts_alloc_unaligned`. -/
def ts_alloc_unaligned (size : Nat) (s : TempStorage) : Outcome Nat :=
  let used := s.used
  let s := { s with used := add64 s.used size }
  (ts_assert_within_bounds (add64 used size) s).bind fun _ s =>
    .returned (add64 s.memory used) s

/-- `ts_expand`. -/
def ts_expand (ptr old_size increment : Nat) (s : TempStorage) : Outcome Nat :=
  if ptr ≠ 0 then
    if ptr = sub64 (add64 s.memory s.used) old_size then
      let used := s.used
      let s := { s with used := add64 s.used increment }
      (ts_assert_within_bounds (add64 used increment) s).bind fun _ s =>
        .returned ptr s
    else .assert_failed s
  else
    (ts_alloc_unaligned increment s).bind fun ptr s => .returned ptr s

/-- `ts_resize`. -/
def ts_resize (ptr old_size new_size : Nat) (s : TempStorage) : Outcome Nat :=
  if ptr = sub64 (add64 s.memory s.used) old_size then
    if new_size > old_size then
      .returned ptr { s with used := add64 s.used (sub64 new_size old_size) }
    else if new_size < old_size then
      .returned ptr { s with used := sub64 s.used (sub64 old_size new_size) }
    else .returned ptr s
  else .assert_failed s

/-- `ts_reset`. -/
def ts_reset (s : TempStorage) : TempStorage :=
  { s with used := 0 }


/-! ## Auxiliary definitions for the statements -/

/-- The address `ts_align` rounds `base + used` up to, for the alignment `a`. -/
def aligned_ptr (s : TempStorage) (used a : Nat) : Nat :=
  if add64 s.memory used % a ≠ 0 then
    add64 (add64 s.memory used) (a - add64 s.memory used % a)
  else add64 s.memory used

/-- A call of one of the two allocation functions. -/
inductive AllocCall where
  | aligned (alignment size : Nat)
  | unaligned (size : Nat)
  deriving DecidableEq, Repr

/-- The number of bytes the call asks for. -/
def AllocCall.size : AllocCall → Nat
  | .aligned _ size => size
  | .unaligned size => size

/-- The alignment of the call, when it has one, is a power of two of a 64-bit word. -/
def AllocCall.pow2 : AllocCall → Prop
  | .aligned alignment _ => ∃ k, k < 64 ∧ alignment = 2 ^ k
  | .unaligned _ => True

/-- The call, made on the storage `s`. -/
def AllocCall.run (fuel : Nat) : AllocCall → TempStorage → Option (Outcome Nat)
  | .aligned alignment size, s => ts_alloc_aligned fuel alignment size s
  | .unaligned size, s => some (ts_alloc_unaligned size s)

/-- A caller issuing the calls one after the other: the granted ranges
`(address, size)` of the calls that return, in order.  The first call that does
not return ends the process, so no later call is made. -/
def run_allocs (fuel : Nat) : List AllocCall → TempStorage → List (Nat × Nat)
  | [], _ => []
  | c :: cs, s =>
    match c.run fuel s with
    | some (.returned p s') => (p, c.size) :: run_allocs fuel cs s'
    | _ => []

/-- A call of one of the operations of `ts.h` after `ts_init`. -/
inductive Op where
  | alloc_aligned (alignment size : Nat)
  | alloc_unaligned (size : Nat)
  | expand (ptr old_size increment : Nat)
  | resize (ptr old_size new_size : Nat)
  | reset
  deriving DecidableEq, Repr

/-- The storage a call leaves when it returns; `none` when it ends the process
(or the fuel runs out). -/
def returned_storage {α : Type} : Option (Outcome α) → Option TempStorage
  | some (.returned _ s) => some s
  | _ => none

/-- The storage after the operation, when it returns. -/
def Op.next (fuel : Nat) : Op → TempStorage → Option TempStorage
  | .alloc_aligned alignment size, s => returned_storage (ts_alloc_aligned fuel alignment size s)
  | .alloc_unaligned size, s => returned_storage (some (ts_alloc_unaligned size s))
  | .expand ptr old_size increment, s => returned_storage (some (ts_expand ptr old_size increment s))
  | .resize ptr old_size new_size, s => returned_storage (some (ts_resize ptr old_size new_size s))
  | .reset, s => some (ts_reset s)

/-- A caller performing the operations one after the other: the storage after
the last one, when all of them return. -/
def run_ops (fuel : Nat) : List Op → TempStorage → Option TempStorage
  | [], s => some s
  | op :: ops, s =>
    match op.next fuel s with
    | some s' => run_ops fuel ops s'
    | none => none

/-- One granted allocation of a run: the value of `used` before the call, the
address returned, the size asked for, and the value of `used` after the call. -/
structure Grant where
  before : Nat
  ptr : Nat
  size : Nat
  after : Nat
  deriving DecidableEq, Repr

/-- A caller issuing the calls one after the other, as `run_allocs`, recording
`used` around each call that returns; the storage is the one left by the last
call that returned. -/
def run_grants (fuel : Nat) : List AllocCall → TempStorage → List Grant × TempStorage
  | [], s => ([], s)
  | c :: cs, s =>
    match c.run fuel s with
    | some (.returned p s') =>
      ({ before := s.used, ptr := p, size := c.size, after := s'.used }
        :: (run_grants fuel cs s').1, (run_grants fuel cs s').2)
    | _ => ([], s)

/-! ## Threads allocating concurrently -/

/-- Where a thread stands in its current allocation call, with the values of its
local variables: before the first atomic operation (`start`); in
`ts_alloc_aligned`, after the atomic load of `used` (`loaded`); after the
successful compare-and-swap or the fetch-and-add, before the bounds check
(`claimed`, with the value read from `used`, the offset of the address to return,
and the new cursor). -/
inductive Pc where
  | start
  | loaded (used : Nat)
  | claimed (used offset new_used : Nat)
  deriving DecidableEq, Repr

/-- A thread: the allocation calls it has still to complete (the first is the
current one) and where it stands in the current one. -/
structure Thread where
  calls : List AllocCall
  pc : Pc
  deriving DecidableEq, Repr

/-- The process runs, or has been ended by a failed `assert` or by the `exit` of
`ts_assert_within_bounds`. -/
inductive Status where
  | running
  | assert_failed
  | exited (requested allocated : Nat)
  deriving DecidableEq, Repr

/-- What one step of a thread does: nothing, or it moves on (with the value of
`used` after the step and the grant the step returns, if it returns), or it ends
the process. -/
inductive Effect where
  | skip
  | update (t : Thread) (used : Nat) (grant : Option Grant)
  | stop (status : Status)
  deriving DecidableEq, Repr

/-- One step of a thread on the shared storage `s`: the next atomic operation on
`used` of its current call together with the thread-local code that follows it.

* `ts_alloc_unaligned`, `start`: the fetch-and-add.
* `ts_alloc_aligned`, `start`: the atomic load.
* `ts_alloc_aligned`, `loaded`: `ts_align`, the sum, and the compare-and-swap; when
  it fails the loop starts again.
* `claimed`: `ts_assert_within_bounds` and the return of the address. -/
def Thread.step (t : Thread) (s : TempStorage) : Effect :=
  match t.calls with
  | [] => .skip
  | c :: rest =>
    match t.pc with
    | .start =>
      match c with
      | .unaligned size =>
        .update { t with pc := .claimed s.used s.used (add64 s.used size) }
          (add64 s.used size) none
      | .aligned _ _ => .update { t with pc := .loaded s.used } s.used none
    | .loaded used =>
      match c with
      | .unaligned _ => .skip
      | .aligned alignment size =>
        match ts_align used alignment s with
        | .returned aligned _ =>
          let new_used := add64 aligned size
          if s.used = used then
            .update { t with pc := .claimed used aligned new_used } new_used none
          else .update { t with pc := .start } s.used none
        | .assert_failed _ => .stop .assert_failed
        | .exited r a _ => .stop (.exited r a)
    | .claimed used offset new_used =>
      match ts_assert_within_bounds new_used s with
      | .returned _ _ =>
        .update { calls := rest, pc := .start } s.used
          (some { before := used, ptr := add64 s.memory offset, size := c.size,
                  after := new_used })
      | .assert_failed _ => .stop .assert_failed
      | .exited r a _ => .stop (.exited r a)

/-- The process: the shared storage, its threads, the grants returned so far (the
latest first) and whether it still runs. -/
structure World where
  storage : TempStorage
  threads : List Thread
  returned : List Grant
  status : Status
  deriving DecidableEq, Repr

/-- The scheduler lets thread `i` take its next step; nothing happens once the
process has ended, or when there is no such thread. -/
def World.step (i : Nat) (w : World) : World :=
  match w.status with
  | .running =>
    match w.threads[i]? with
    | none => w
    | some t =>
      match t.step w.storage with
      | .skip => w
      | .update t' used grant =>
        { storage := { w.storage with used := used },
          threads := w.threads.set i t',
          returned := match grant with
            | some g => g :: w.returned
            | none => w.returned,
          status := .running }
      | .stop status => { w with status := status }
  | _ => w

/-- The process under a schedule: the list of the threads that step, in order. -/
def World.run : List Nat → World → World
  | [], w => w
  | i :: schedule, w => World.run schedule (w.step i)

theorem u64_of_int_pos (i : Int) (h0 : 0 < i) (h1 : i < 2 ^ 31) :
    u64_of_int i = i.toNat ∧ 0 < i.toNat ∧ i.toNat < 2 ^ 31 := by
  unfold u64_of_int
  have h : i % 2 ^ 64 = i := Int.emod_eq_of_lt (by omega) (by omega)
  rw [h]
  omega

theorem ceil_div_eq (n p : Nat) (hp : 0 < p) :
    (n + p - 1) / p = n / p + (if n % p = 0 then 0 else 1) := by
  have hdm := Nat.div_add_mod n p
  have hr := Nat.mod_lt n hp
  have hsucc : (n / p + 1) * p = p * (n / p) + p := by ring
  have hsucc2 : (n / p + 1 + 1) * p = p * (n / p) + p + p := by ring
  have hq : n / p * p = p * (n / p) := by ring
  by_cases h0 : n % p = 0
  · simp only [h0, if_true, Nat.add_zero]
    apply Nat.div_eq_of_lt_le <;> omega
  · simp only [h0, if_false]
    apply Nat.div_eq_of_lt_le <;> omega

/-! ## Initialisation -/

/-- C1 (as stated, refuted): with a page size of 4096 and a request of `2 ^ 64 - 1`
bytes, `ts_init` succeeds and leaves `used = 0`, but the capacity is `0`: the
product `num_pages * page_size` is `2 ^ 64`, which wraps, so the capacity is
neither `ceil(requested / page) * page` nor at least the requested size. -/
theorem ts_init_wraps_capacity :
    (ts_init 4096 (fun _ => 65536) (2 ^ 64 - 1)).1 = true ∧
    (ts_init 4096 (fun _ => 65536) (2 ^ 64 - 1)).2.used = 0 ∧
    (ts_init 4096 (fun _ => 65536) (2 ^ 64 - 1)).2.size = 0 ∧
    (ts_init 4096 (fun _ => 65536) (2 ^ 64 - 1)).2.size
      ≠ (2 ^ 64 - 1 + 4096 - 1) / 4096 * 4096 ∧
    ¬ (2 ^ 64 - 1 ≤ (ts_init 4096 (fun _ => 65536) (2 ^ 64 - 1)).2.size) := by
  decide

/-- C1 (amended): for every 64-bit `requested_size` and every positive page size
(an `int`) whose rounded-up size `ceil(requested_size / page_size) * page_size`
is below `2 ^ 64`, `ts_init` leaves `used = 0` and
`capacity = ceil(requested_size / page_size) * page_size`, which is the smallest
multiple of the page size that is at least `requested_size`.  This holds for the
storage `ts_init` leaves whether or not the `mmap` call succeeded. -/
theorem ts_init_capacity (page_size : Int) (mmap : Nat → Nat) (size : Nat)
    (hps : 0 < page_size) (hint : page_size < 2 ^ 31) (hsize : size < 2 ^ 64)
    (hfit : (size + page_size.toNat - 1) / page_size.toNat * page_size.toNat < 2 ^ 64) :
    (ts_init page_size mmap size).2.used = 0 ∧
    (ts_init page_size mmap size).2.size
      = (size + page_size.toNat - 1) / page_size.toNat * page_size.toNat ∧
    page_size.toNat ∣ (ts_init page_size mmap size).2.size ∧
    size ≤ (ts_init page_size mmap size).2.size ∧
    ∀ m, page_size.toNat ∣ m → size ≤ m → (ts_init page_size mmap size).2.size ≤ m := by
  obtain ⟨hu, hp, -⟩ := u64_of_int_pos page_size hps hint
  generalize page_size.toNat = p at *
  have hceil := ceil_div_eq size p hp
  have hdm := Nat.div_add_mod size p
  have hq : size / p * p = p * (size / p) := by ring
  have hsucc : (size / p + 1) * p = p * (size / p) + p := by ring
  have hr := Nat.mod_lt size hp
  have hcap : (ts_init page_size mmap size).2.size = (size + p - 1) / p * p := by
    simp only [ts_init, hu, add64, mul64]
    rw [hceil] at hfit ⊢
    by_cases h0 : size % p = 0
    · simp only [h0, ne_eq, not_true_eq_false, if_false, if_true, Nat.add_zero] at hfit ⊢
      exact Nat.mod_eq_of_lt hfit
    · simp only [h0, ne_eq, not_false_eq_true, if_false, if_true] at hfit ⊢
      have hq1 : size / p + 1 < 2 ^ 64 := by
        have := Nat.div_le_self size p
        rcases Nat.lt_or_ge (size / p + 1) (2 ^ 64) with h | h
        · exact h
        · exfalso
          have : size / p = size := by omega
          have : p * size = p * (size / p) := by rw [this]
          nlinarith
      rw [Nat.mod_eq_of_lt hq1]
      exact Nat.mod_eq_of_lt hfit
  refine ⟨rfl, hcap, ?_, ?_, ?_⟩
  · rw [hcap]; exact Dvd.intro_left _ rfl
  · rw [hcap, hceil]
    by_cases h0 : size % p = 0
    · simp only [h0, if_true, Nat.add_zero]; omega
    · simp only [h0, if_false]; omega
  · intro m hdvd hle
    obtain ⟨k, rfl⟩ := hdvd
    rw [hcap, hceil]
    by_cases h0 : size % p = 0
    · simp only [h0, if_true, Nat.add_zero]; omega
    · simp only [h0, if_false]
      have hlt : size / p < k := by
        by_contra hcon
        have : p * k ≤ p * (size / p) := Nat.mul_le_mul_left p (by omega)
        omega
      have : (size / p + 1) * p ≤ k * p := Nat.mul_le_mul_right p hlt
      have hk : k * p = p * k := by ring
      omega

/-- Witness for `ts_init_capacity`: the page size 4096 and a request of 10000 bytes
give a capacity of 12288. -/
theorem ts_init_capacity_witness :
    (ts_init 4096 (fun _ => 65536) 10000).2.used = 0 ∧
    (ts_init 4096 (fun _ => 65536) 10000).2.size = 12288 := by
  have h := ts_init_capacity 4096 (fun _ => 65536) 10000 (by decide) (by decide)
    (by decide) (by decide)
  exact ⟨h.1, h.2.1⟩

/-! ## Unaligned allocation -/

/-- C2: for every storage with a 64-bit capacity and every size with
`used + size ≤ capacity` (so that `used ≤ capacity`), `ts_alloc_unaligned size` returns
the address `base + used` (in address arithmetic; the plain sum whenever that is
below `2 ^ 64`) and leaves `used` increased by `size`, with `memory` and `size`
unchanged. -/
theorem ts_alloc_unaligned_within (s : TempStorage) (size : Nat)
    (hcap : s.size < 2 ^ 64) (hfit : s.used + size ≤ s.size) :
    ts_alloc_unaligned size s
      = .returned (add64 s.memory s.used)
          { memory := s.memory, size := s.size, used := s.used + size } ∧
    (s.memory + s.used < 2 ^ 64 → add64 s.memory s.used = s.memory + s.used) := by
  constructor
  · have hsum : (s.used + size) % 2 ^ 64 = s.used + size := Nat.mod_eq_of_lt (by omega)
    simp only [ts_alloc_unaligned, ts_assert_within_bounds, add64, hsum]
    rw [if_neg (by omega)]
    rfl
  · intro h
    exact Nat.mod_eq_of_lt h

/-- Witness for `ts_alloc_unaligned_within`: after 100 bytes are in use, a request
of 50 bytes returns `base + 100` and leaves `used = 150`. -/
theorem ts_alloc_unaligned_within_witness :
    ts_alloc_unaligned 50 { memory := 65536, size := 12288, used := 100 }
      = .returned 65636 { memory := 65536, size := 12288, used := 150 } :=
  (ts_alloc_unaligned_within { memory := 65536, size := 12288, used := 100 } 50
    (by decide) (by decide)).1

/-- C5 (the code at the failing input): with `used = 1` and a capacity of 4096,
`ts_alloc_unaligned (2 ^ 64 - 1)` returns normally (the address `base + 1`, with
`used` wrapped to `0`), although the end of the granted range, `1 + (2 ^ 64 - 1)`
as an unbounded integer, exceeds the capacity. -/
theorem ts_alloc_unaligned_wraps :
    ts_alloc_unaligned (2 ^ 64 - 1) { memory := 65536, size := 4096, used := 1 }
      = .returned 65537 { memory := 65536, size := 4096, used := 0 } ∧
    ¬ (1 + (2 ^ 64 - 1) ≤ 4096) := by
  decide

/-! ## Growing and shrinking the tail -/

/-- C6 (the code at the failing input): with `used = 150` of a capacity of 12288,
`ts_resize (base + 100) 50 20000` returns normally and leaves `used = 20100`,
above the capacity; the same growth through `ts_expand` is checked and exits. -/
theorem ts_resize_grows_past_capacity :
    ts_resize 65636 50 20000 { memory := 65536, size := 12288, used := 150 }
      = .returned 65636 { memory := 65536, size := 12288, used := 20100 } ∧
    ¬ (20100 ≤ 12288) ∧
    ts_expand 65636 50 19950 { memory := 65536, size := 12288, used := 150 }
      = .exited 20100 12288 { memory := 65536, size := 12288, used := 20100 } := by
  decide

/-- C7 (as stated, refuted): at the true tail `base + 100` of a storage with
`used = 150`, growing the 50-byte tail to `2 ^ 64 - 1` bytes returns the pointer
but leaves `used = 99`: the cursor did not increase by `new_size - old_size`. -/
theorem ts_resize_growth_wraps :
    ts_resize 65636 50 (2 ^ 64 - 1) { memory := 65536, size := 12288, used := 150 }
      = .returned 65636 { memory := 65536, size := 12288, used := 99 } ∧
    99 ≠ 150 + (2 ^ 64 - 1 - 50) := by
  decide

/-- C7 (amended): for every storage and every pointer `p` that is the true tail
(`p = base + (used - old_size)` with `old_size ≤ used`), `ts_resize p old_size
new_size` returns `p` and changes only `used`: it decreases by
`old_size - new_size` when `new_size < old_size`, is unchanged when
`new_size = old_size`, and increases by `new_size - old_size` when
`new_size > old_size` provided `used + (new_size - old_size)` is at most the
capacity. -/
theorem ts_resize_tail (s : TempStorage) (old_size new_size : Nat)
    (hcap : s.size < 2 ^ 64) (hused : s.used < 2 ^ 64) (hnew : new_size < 2 ^ 64)
    (hold : old_size ≤ s.used)
    (hfit : old_size < new_size → s.used + (new_size - old_size) ≤ s.size) :
    ∃ used', ts_resize (add64 s.memory (s.used - old_size)) old_size new_size s
        = .returned (add64 s.memory (s.used - old_size))
            { memory := s.memory, size := s.size, used := used' } ∧
      (old_size < new_size → used' = s.used + (new_size - old_size)) ∧
      (new_size < old_size → used' = s.used - (old_size - new_size)) ∧
      (new_size = old_size → used' = s.used) := by
  have htail : add64 s.memory (s.used - old_size)
      = sub64 (add64 s.memory s.used) old_size := by
    simp only [add64, sub64]; omega
  rcases Nat.lt_trichotomy old_size new_size with h | h | h
  · refine ⟨s.used + (new_size - old_size), ?_, fun _ => rfl, fun h' => by omega,
      fun h' => by omega⟩
    have hgrow : add64 s.used (sub64 new_size old_size) = s.used + (new_size - old_size) := by
      have := hfit h
      simp only [add64, sub64]; omega
    simp only [ts_resize, ← htail, if_true, gt_iff_lt, h, hgrow]
  · subst h
    refine ⟨s.used, ?_, fun h' => by omega, fun h' => by omega, fun _ => rfl⟩
    simp only [ts_resize, ← htail, if_true, gt_iff_lt, Nat.lt_irrefl, if_false]
  · refine ⟨s.used - (old_size - new_size), ?_, fun h' => by omega, fun _ => rfl,
      fun h' => by omega⟩
    have hshrink : sub64 s.used (sub64 old_size new_size)
        = s.used - (old_size - new_size) := by
      simp only [sub64]; omega
    have hng : ¬ old_size < new_size := by omega
    simp only [ts_resize, ← htail, if_true, gt_iff_lt, hng, if_false, h, hshrink]

/-- Witness for `ts_resize_tail`: growing the 50-byte tail at `base + 100` to 200
bytes returns `base + 100` and leaves `used = 300`. -/
theorem ts_resize_tail_witness :
    ∃ used', ts_resize 65636 50 200 { memory := 65536, size := 12288, used := 150 }
        = .returned 65636 { memory := 65536, size := 12288, used := used' } ∧
      used' = 300 := by
  obtain ⟨u, h, hg, -, -⟩ := ts_resize_tail { memory := 65536, size := 12288, used := 150 }
    50 200 (by decide) (by decide) (by decide) (by decide) (by decide)
  exact ⟨u, h, hg (by decide)⟩

/-- C8 (as stated, refuted): after `ts_alloc_unaligned 100` (granted `base`) and
`ts_alloc_unaligned 50` (granted `base + 100`), `ts_resize base 150 200` on the
pointer of the earlier allocation is not rejected: it returns `base` and moves
`used` from 150 to 200. -/
theorem ts_resize_accepts_earlier_pointer :
    ts_alloc_unaligned 100 { memory := 65536, size := 12288, used := 0 }
      = .returned 65536 { memory := 65536, size := 12288, used := 100 } ∧
    ts_alloc_unaligned 50 { memory := 65536, size := 12288, used := 100 }
      = .returned 65636 { memory := 65536, size := 12288, used := 150 } ∧
    ts_resize 65536 150 200 { memory := 65536, size := 12288, used := 150 }
      = .returned 65536 { memory := 65536, size := 12288, used := 200 } := by
  decide

/-- C8 (amended): for every storage and every pointer `p = base + off` at an
offset `off ≤ used` (every pointer granted since the last reset is one), and
every `new_size`, `ts_resize p old_size new_size` is rejected by its assertion,
leaving the storage unchanged, exactly when `old_size ≠ used - off`; a caller
passing `old_size = used - off` is not rejected. -/
theorem ts_resize_rejects_iff (s : TempStorage) (off old_size new_size : Nat)
    (hused : s.used < 2 ^ 64) (hoff : off ≤ s.used) (hold : old_size < 2 ^ 64) :
    ts_resize (add64 s.memory off) old_size new_size s = .assert_failed s
      ↔ old_size ≠ s.used - off := by
  have hiff : add64 s.memory off = sub64 (add64 s.memory s.used) old_size
      ↔ old_size = s.used - off := by
    simp only [add64, sub64]; omega
  constructor
  · intro h heq
    have hp := hiff.mpr heq
    simp only [ts_resize, hp, if_true, gt_iff_lt] at h
    split at h
    · cases h
    · split at h <;> cases h
  · intro hne
    have hp : ¬ add64 s.memory off = sub64 (add64 s.memory s.used) old_size :=
      fun h => hne (hiff.mp h)
    simp only [ts_resize, hp, if_false]

/-- Witness for `ts_resize_rejects_iff`: with `used = 150`, resizing the earlier
pointer `base` with `old_size = 100` is rejected and the storage is unchanged. -/
theorem ts_resize_rejects_iff_witness :
    ts_resize 65536 100 200 { memory := 65536, size := 12288, used := 150 }
      = .assert_failed { memory := 65536, size := 12288, used := 150 } :=
  (ts_resize_rejects_iff { memory := 65536, size := 12288, used := 150 } 0 100 200
    (by decide) (by decide) (by decide)).mpr (by decide)

theorem bind_returned (o : Outcome Nat) : (o.bind fun ptr s => .returned ptr s) = o := by
  cases o <;> rfl

/-- C9: for every storage, `old_size` and `increment`, `ts_expand` on the null
pointer is `ts_alloc_unaligned increment`: the same returned pointer, the same
resulting storage, and the same rejection (outcome and diagnostic figures). -/
theorem ts_expand_null (s : TempStorage) (old_size increment : Nat) :
    ts_expand 0 old_size increment s = ts_alloc_unaligned increment s := by
  simp only [ts_expand, ne_eq, not_true_eq_false, if_false]
  cases ts_alloc_unaligned increment s <;> rfl

/-- What `ts_expand` does on a non-null pointer: the tail assertion, then the
fetch-and-add, then the bounds check on the 64-bit sum. -/
theorem ts_expand_non_null (s : TempStorage) (ptr old_size increment : Nat) (hp : ptr ≠ 0) :
    ts_expand ptr old_size increment s
      = if ptr = sub64 (add64 s.memory s.used) old_size then
          if add64 s.used increment > s.size then
            .exited (add64 s.used increment) s.size
              { memory := s.memory, size := s.size, used := add64 s.used increment }
          else
            .returned ptr
              { memory := s.memory, size := s.size, used := add64 s.used increment }
        else .assert_failed s := by
  simp only [ts_expand, ne_eq, hp, not_false_eq_true, if_true, ts_assert_within_bounds]
  split
  · split <;> rfl
  · rfl

/-- The three cases of `ts_expand` on a non-null pointer when `used + increment`
does not wrap: growth within the capacity returns the pointer, growth past the
capacity exits, and a pointer that is not the tail fails the assertion with the
storage unchanged. -/
theorem ts_expand_no_wrap (s : TempStorage) (ptr old_size increment : Nat) (hp : ptr ≠ 0)
    (hfit : s.used + increment < 2 ^ 64) :
    (ptr = sub64 (add64 s.memory s.used) old_size → s.used + increment ≤ s.size →
      ts_expand ptr old_size increment s
        = .returned ptr { memory := s.memory, size := s.size, used := s.used + increment }) ∧
    (ptr = sub64 (add64 s.memory s.used) old_size → s.used + increment > s.size →
      ts_expand ptr old_size increment s
        = .exited (s.used + increment) s.size
            { memory := s.memory, size := s.size, used := s.used + increment }) ∧
    (ptr ≠ sub64 (add64 s.memory s.used) old_size →
      ts_expand ptr old_size increment s = .assert_failed s) := by
  have hsum : add64 s.used increment = s.used + increment := Nat.mod_eq_of_lt hfit
  rw [ts_expand_non_null s ptr old_size increment hp, hsum]
  refine ⟨fun h1 h2 => ?_, fun h1 h2 => ?_, fun h1 => ?_⟩
  · rw [if_pos h1, if_neg (by omega)]
  · rw [if_pos h1, if_pos h2]
  · rw [if_neg h1]

/-- C10 (the code at the failing input): with `used = 1` of a capacity of 4096 and
the tail pointer `base` (`old_size = 1`), `ts_expand base 1 (2 ^ 64 - 1)` is not
rejected although `used + increment`, as an unbounded integer, exceeds the
capacity: it returns `base` and leaves `used = 0`. -/
theorem ts_expand_wraps :
    ts_expand 65536 1 (2 ^ 64 - 1) { memory := 65536, size := 4096, used := 1 }
      = .returned 65536 { memory := 65536, size := 4096, used := 0 } ∧
    ¬ (1 + (2 ^ 64 - 1) ≤ 4096) := by
  decide

/-! ## Aligned allocation -/

theorem pow2_bounds (k : Nat) (hk : k < 64) :
    0 < 2 ^ k ∧ 2 ^ k ≤ 2 ^ 63 ∧ 2 ^ k ∣ 2 ^ 63 ∧ 2 ^ k ∣ 2 ^ 64 := by
  refine ⟨Nat.pos_pow_of_pos k (by decide), Nat.pow_le_pow_right (by decide) (by omega),
    Nat.pow_dvd_pow 2 (by omega), Nat.pow_dvd_pow 2 (by omega)⟩

theorem ts_align_pow2 (s : TempStorage) (used k : Nat) (hk : k < 64) :
    ts_align used (2 ^ k) s = .returned (sub64 (aligned_ptr s used (2 ^ k)) s.memory) s := by
  obtain ⟨hpos, hle, -, -⟩ := pow2_bounds k hk
  have hsub : sub64 (2 ^ k) 1 = 2 ^ k - 1 := by
    simp only [sub64]; omega
  have hmod : ∀ x, x &&& (2 ^ k - 1) = x % 2 ^ k := fun x =>
    Nat.and_pow_two_sub_one_eq_mod x k
  have hlt := Nat.mod_lt (add64 s.memory used) hpos
  have hsub2 : sub64 (2 ^ k) (add64 s.memory used % 2 ^ k)
      = 2 ^ k - add64 s.memory used % 2 ^ k := by
    simp only [sub64]; omega
  simp only [ts_align, aligned_ptr, hsub, hmod, Nat.mod_self, if_true, hsub2]

theorem aligned_ptr_mod (s : TempStorage) (used k : Nat) (hk : k < 64) :
    aligned_ptr s used (2 ^ k) % 2 ^ k = 0 ∧ aligned_ptr s used (2 ^ k) < 2 ^ 64 := by
  obtain ⟨hpos, hle, -, hdvd⟩ := pow2_bounds k hk
  have hlt64 : ∀ x y, add64 x y < 2 ^ 64 := fun x y => Nat.mod_lt _ (by decide)
  unfold aligned_ptr
  split
  · refine ⟨?_, hlt64 _ _⟩
    generalize add64 s.memory used = ptr
    unfold add64
    rw [Nat.mod_mod_of_dvd _ hdvd]
    have hlt := Nat.mod_lt ptr hpos
    have hdm := Nat.div_add_mod ptr (2 ^ k)
    have : ptr + (2 ^ k - ptr % 2 ^ k) = 2 ^ k * (ptr / 2 ^ k + 1) := by
      rw [Nat.mul_add, Nat.mul_one]; omega
    rw [this]
    exact Nat.mul_mod_right _ _
  · rename_i h
    exact ⟨by simpa using h, hlt64 _ _⟩

theorem add64_sub64_cancel (m x : Nat) (hx : x < 2 ^ 64) : add64 m (sub64 x m) = x := by
  simp only [add64, sub64]; omega

/-- One iteration of the loop of `ts_alloc_aligned` decides the call: the
compare-and-swap finds `used` as it was just read. -/
theorem ts_alloc_aligned_succ (fuel alignment size : Nat) (s : TempStorage) :
    ts_alloc_aligned (fuel + 1) alignment size s
      = some ((ts_align s.used alignment s).bind fun aligned s =>
          (ts_assert_within_bounds (add64 aligned size)
            { s with used := add64 aligned size }).bind fun _ s =>
              .returned (add64 s.memory aligned) s) := by
  unfold ts_alloc_aligned ts_align
  split <;> simp [Outcome.bind]

/-- C3: for every storage (every base address and cursor value), every size and
every power-of-two alignment `2 ^ k` of a 64-bit word, the address returned by a
`ts_alloc_aligned` call that returns is a multiple of the alignment. -/
theorem ts_alloc_aligned_is_aligned (fuel k size : Nat) (s s' : TempStorage) (p : Nat)
    (hk : k < 64)
    (h : ts_alloc_aligned fuel (2 ^ k) size s = some (.returned p s')) :
    p % 2 ^ k = 0 := by
  cases fuel with
  | zero => simp [ts_alloc_aligned] at h
  | succ fuel =>
    obtain ⟨hmod, hlt⟩ := aligned_ptr_mod s s.used k hk
    rw [ts_alloc_aligned_succ, ts_align_pow2 s s.used k hk] at h
    simp only [ts_assert_within_bounds, Option.some.injEq] at h
    by_cases hb : add64 (sub64 (aligned_ptr s s.used (2 ^ k)) s.memory) size > s.size
    · simp only [hb, if_true, Outcome.bind] at h
      cases h
    · simp only [hb, if_false, Outcome.bind, Outcome.returned.injEq] at h
      rw [← h.1, add64_sub64_cancel _ _ hlt]
      exact hmod

/-- Witness for `ts_alloc_aligned_is_aligned`: with `used = 3`, a 10-byte request
aligned to 16 returns `base + 16`, a multiple of 16. -/
theorem ts_alloc_aligned_is_aligned_witness :
    ts_alloc_aligned 1 (2 ^ 4) 10 { memory := 65536, size := 12288, used := 3 }
      = some (.returned 65552 { memory := 65536, size := 12288, used := 26 }) ∧
    65552 % 2 ^ 4 = 0 :=
  ⟨by decide, ts_alloc_aligned_is_aligned 1 4 10 { memory := 65536, size := 12288, used := 3 }
    { memory := 65536, size := 12288, used := 26 } 65552 (by decide) (by decide)⟩

theorem aligned_ptr_bounds (s : TempStorage) (used k : Nat) (hk : k < 64)
    (hlow : s.memory + used < 2 ^ 63) :
    s.memory + used ≤ aligned_ptr s used (2 ^ k) ∧ aligned_ptr s used (2 ^ k) ≤ 2 ^ 63 := by
  obtain ⟨hpos, hle, ⟨t, ht⟩, -⟩ := pow2_bounds k hk
  have hadd : add64 s.memory used = s.memory + used := Nat.mod_eq_of_lt (by omega)
  unfold aligned_ptr
  rw [hadd]
  generalize s.memory + used = ptr at *
  split
  · have hlt := Nat.mod_lt ptr hpos
    have hdm := Nat.div_add_mod ptr (2 ^ k)
    have hq : ptr / 2 ^ k < t := by
      apply Nat.div_lt_of_lt_mul
      rw [← ht]; exact hlow
    have hmul : 2 ^ k * (ptr / 2 ^ k + 1) ≤ 2 ^ k * t := Nat.mul_le_mul_left _ hq
    have hup : ptr + (2 ^ k - ptr % 2 ^ k) = 2 ^ k * (ptr / 2 ^ k + 1) := by
      rw [Nat.mul_add, Nat.mul_one]; omega
    have hbound : ptr + (2 ^ k - ptr % 2 ^ k) ≤ 2 ^ 63 := by
      rw [hup, ht]; exact hmul
    have : add64 ptr (2 ^ k - ptr % 2 ^ k) = ptr + (2 ^ k - ptr % 2 ^ k) :=
      Nat.mod_eq_of_lt (by omega)
    rw [this]
    omega
  · omega

/-- What a returning allocation call does, on a storage in the lower half of the
address space: the granted range starts at or after `base + used` and ends at the
new `base + used`, which stays within the capacity. -/
theorem AllocCall.run_returned (fuel : Nat) (c : AllocCall) (s s' : TempStorage) (p : Nat)
    (hlow : s.memory + s.size < 2 ^ 63) (hused : s.used ≤ s.size)
    (hsize : c.size ≤ s.size) (hpow : c.pow2)
    (h : c.run fuel s = some (.returned p s')) :
    s'.memory = s.memory ∧ s'.size = s.size ∧ s'.used ≤ s.size ∧
      s.memory + s.used ≤ p ∧ p + c.size = s.memory + s'.used := by
  cases c with
  | unaligned size =>
    simp only [AllocCall.size] at hsize ⊢
    have hsum : add64 s.used size = s.used + size := Nat.mod_eq_of_lt (by omega)
    have hptr : add64 s.memory s.used = s.memory + s.used := Nat.mod_eq_of_lt (by omega)
    simp only [AllocCall.run, ts_alloc_unaligned, ts_assert_within_bounds, hsum, hptr,
      Option.some.injEq] at h
    by_cases hb : s.used + size > s.size
    · simp only [hb, if_true, Outcome.bind] at h
      cases h
    · simp only [hb, if_false, Outcome.bind, Outcome.returned.injEq, hptr] at h
      obtain ⟨rfl, rfl⟩ := h
      exact ⟨rfl, rfl, by simp only; omega, by omega, by simp only; omega⟩
  | aligned alignment size =>
    obtain ⟨k, hk, rfl⟩ := hpow
    simp only [AllocCall.size] at hsize ⊢
    cases fuel with
    | zero => simp [AllocCall.run, ts_alloc_aligned] at h
    | succ fuel =>
      obtain ⟨hlo, hhi⟩ := aligned_ptr_bounds s s.used k hk (by omega)
      generalize hr : aligned_ptr s s.used (2 ^ k) = r at hlo hhi
      have hal : sub64 r s.memory = r - s.memory := by
        simp only [sub64]; omega
      have hnew : add64 (r - s.memory) size = r - s.memory + size :=
        Nat.mod_eq_of_lt (by omega)
      have hptr : add64 s.memory (r - s.memory) = r := by
        simp only [add64]; omega
      simp only [AllocCall.run, ts_alloc_aligned_succ, ts_align_pow2 s s.used k hk, hr, hal,
        Outcome.bind, ts_assert_within_bounds, hnew, hptr, Option.some.injEq] at h
      by_cases hb : r - s.memory + size > s.size
      · simp only [hb, if_true] at h
        cases h
      · simp only [hb, if_false, Outcome.returned.injEq, hptr] at h
        obtain ⟨rfl, rfl⟩ := h
        exact ⟨rfl, rfl, by simp only; omega, by omega, by simp only; omega⟩

/-- The ranges granted along a run, from any storage with `used ≤ capacity`. -/
theorem run_allocs_ordered (fuel : Nat) (calls : List AllocCall) :
    ∀ s : TempStorage, s.memory + s.size < 2 ^ 63 → s.used ≤ s.size →
      (∀ c ∈ calls, c.size ≤ s.size ∧ c.pow2) →
      (run_allocs fuel calls s).Pairwise (fun r1 r2 => r1.1 + r1.2 ≤ r2.1) ∧
      ∀ r ∈ run_allocs fuel calls s,
        s.memory + s.used ≤ r.1 ∧ r.1 + r.2 ≤ s.memory + s.size := by
  induction calls with
  | nil =>
    intro s _ _ _
    simp [run_allocs]
  | cons c cs ih =>
    intro s hlow hused hcalls
    obtain ⟨hsize, hpow⟩ := hcalls c (List.mem_cons_self c cs)
    unfold run_allocs
    split
    · rename_i p s' hrun
      obtain ⟨hm, hs, hu, hp, hend⟩ := AllocCall.run_returned fuel c s s' p hlow hused hsize hpow hrun
      obtain ⟨ihp, ihr⟩ := ih s' (by rw [hm, hs]; exact hlow) (by rw [hs]; exact hu)
        (fun c' hc' => by rw [hs]; exact hcalls c' (List.mem_cons_of_mem c hc'))
      rw [hm, hs] at ihr
      refine ⟨List.pairwise_cons.mpr ⟨fun r hr => ?_, ihp⟩, fun r hr => ?_⟩
      · have := (ihr r hr).1
        simp only
        omega
      · rcases List.mem_cons.mp hr with rfl | hr
        · simp only
          omega
        · have := ihr r hr
          omega
    · simp

theorem size_le_sum (calls : List AllocCall) (c : AllocCall) (hc : c ∈ calls) :
    c.size ≤ (calls.map AllocCall.size).sum :=
  List.single_le_sum (fun _ _ => Nat.zero_le _) _ (List.mem_map_of_mem _ hc)

/-- Outside the two side conditions of the disjointness theorem below, a returning
call can be granted a range outside `[base, base + capacity)`, in both cases
because the sum `aligned + size` wraps before the bounds check: two runs from a
fresh storage whose cumulative size is within the capacity.  In the first,
`ts_alloc_aligned 0 65536` (the alignment `0` passes the assertion of `ts_align`)
is granted `[0, 65536)` below the base `65536`.  In the second, with a power-of-two alignment, the sum
`aligned + size` wraps to `0` and the call is granted `[0, 2 ^ 62)` below the base
`2 ^ 62`. -/
theorem run_allocs_outside_region :
    (run_allocs 1 [.aligned 0 65536] { memory := 65536, size := 131072, used := 0 }
      = [(0, 65536)] ∧ 65536 ≤ 131072 ∧ ¬ (65536 ≤ 0)) ∧
    (run_allocs 1 [.unaligned (2 ^ 62 + 1), .aligned (2 ^ 63) (2 ^ 62)]
        { memory := 2 ^ 62, size := 2 ^ 63 + 4096, used := 0 }
      = [(2 ^ 62, 2 ^ 62 + 1), (0, 2 ^ 62)] ∧
      (2 ^ 62 + 1) + 2 ^ 62 ≤ 2 ^ 63 + 4096 ∧ ¬ (2 ^ 62 ≤ 0)) := by
  decide

/-- C4: for every sequence of `ts_alloc_aligned` / `ts_alloc_unaligned` calls (with
alignments that are powers of two, as the contract of `ts_alloc_aligned` asks)
issued from a freshly initialised or reset storage (`used = 0`; a mapped region,
which lies in the lower half of the address space, `base + capacity < 2 ^ 63`)
and whose cumulative size is at most the capacity,
the byte ranges `[p, p + size)` of the calls that return are pairwise disjoint
(each ends no later than the next begins) and each lies within
`[base, base + capacity)`. -/
theorem run_allocs_disjoint_within (fuel : Nat) (calls : List AllocCall) (s : TempStorage)
    (hfresh : s.used = 0) (hlow : s.memory + s.size < 2 ^ 63)
    (hpow : ∀ c ∈ calls, c.pow2)
    (hsum : (calls.map AllocCall.size).sum ≤ s.size) :
    (run_allocs fuel calls s).Pairwise (fun r1 r2 => r1.1 + r1.2 ≤ r2.1) ∧
    ∀ r ∈ run_allocs fuel calls s, s.memory ≤ r.1 ∧ r.1 + r.2 ≤ s.memory + s.size := by
  obtain ⟨hpair, hin⟩ := run_allocs_ordered fuel calls s hlow (by omega)
    (fun c hc => ⟨Nat.le_trans (size_le_sum calls c hc) hsum, hpow c hc⟩)
  refine ⟨hpair, fun r hr => ?_⟩
  have := hin r hr
  omega

/-- Witness for `run_allocs_disjoint_within`: three calls on a fresh storage of
12288 bytes are granted `[base, base + 100)`, `[base + 112, base + 162)` and
`[base + 162, base + 170)`. -/
theorem run_allocs_disjoint_within_witness :
    run_allocs 1 [.unaligned 100, .aligned 16 50, .unaligned 8]
        { memory := 65536, size := 12288, used := 0 }
      = [(65536, 100), (65648, 50), (65698, 8)] ∧
    ((run_allocs 1 [.unaligned 100, .aligned 16 50, .unaligned 8]
        { memory := 65536, size := 12288, used := 0 }).Pairwise
          (fun r1 r2 => r1.1 + r1.2 ≤ r2.1) ∧
      ∀ r ∈ run_allocs 1 [.unaligned 100, .aligned 16 50, .unaligned 8]
          { memory := 65536, size := 12288, used := 0 },
        65536 ≤ r.1 ∧ r.1 + r.2 ≤ 65536 + 12288) :=
  ⟨by decide, run_allocs_disjoint_within 1 [.unaligned 100, .aligned 16 50, .unaligned 8]
    { memory := 65536, size := 12288, used := 0 } rfl (by decide)
    (fun c hc => by
      simp only [List.mem_cons, List.mem_singleton, List.not_mem_nil, or_false] at hc
      rcases hc with rfl | rfl | rfl
      · trivial
      · exact ⟨4, by decide, rfl⟩
      · trivial)
    (by decide)⟩

/-! ## Reset and sequences of operations -/

theorem bounds_bind_storage (n : Nat) (s : TempStorage) (f : TempStorage → Nat) :
    ((ts_assert_within_bounds n s).bind fun _ t => .returned (f t) t).storage = s := by
  unfold ts_assert_within_bounds
  split <;> rfl

theorem bounds_bind_frame (n : Nat) (t s : TempStorage) (f : TempStorage → Nat)
    (hm : t.memory = s.memory) (hs : t.size = s.size) :
    ((ts_assert_within_bounds n t).bind fun _ u => .returned (f u) u).storage.memory
        = s.memory ∧
      ((ts_assert_within_bounds n t).bind fun _ u => .returned (f u) u).storage.size
        = s.size := by
  rw [bounds_bind_storage]
  exact ⟨hm, hs⟩

theorem returned_storage_some {α : Type} (o : Option (Outcome α)) (s' : TempStorage)
    (h : returned_storage o = some s') : ∃ o', o = some o' ∧ o'.storage = s' := by
  unfold returned_storage at h
  split at h
  · rename_i v t
    cases h
    exact ⟨_, rfl, rfl⟩
  · cases h

/-- However `ts_alloc_unaligned` ends, only `used` has changed. -/
theorem ts_alloc_unaligned_storage (size : Nat) (s : TempStorage) :
    (ts_alloc_unaligned size s).storage
      = { memory := s.memory, size := s.size, used := add64 s.used size } := by
  unfold ts_alloc_unaligned
  exact bounds_bind_storage _ _ _

/-- However `ts_alloc_aligned` ends, `memory` and `size` are as they were. -/
theorem ts_alloc_aligned_storage (fuel alignment size : Nat) (s : TempStorage)
    (o : Outcome Nat) (h : ts_alloc_aligned fuel alignment size s = some o) :
    o.storage.memory = s.memory ∧ o.storage.size = s.size := by
  cases fuel with
  | zero => simp [ts_alloc_aligned] at h
  | succ fuel =>
    rw [ts_alloc_aligned_succ, Option.some.injEq] at h
    subst h
    unfold ts_align
    split
    · exact bounds_bind_frame _ _ s _ rfl rfl
    · exact ⟨rfl, rfl⟩

/-- However `ts_expand` ends, `memory` and `size` are as they were. -/
theorem ts_expand_storage (ptr old_size increment : Nat) (s : TempStorage) :
    (ts_expand ptr old_size increment s).storage.memory = s.memory ∧
    (ts_expand ptr old_size increment s).storage.size = s.size := by
  by_cases hp : ptr = 0
  · subst hp
    have h0 : ts_expand 0 old_size increment s = ts_alloc_unaligned increment s := by
      simp only [ts_expand, ne_eq, not_true_eq_false, if_false, bind_returned]
    rw [h0, ts_alloc_unaligned_storage]
    exact ⟨rfl, rfl⟩
  · rw [ts_expand_non_null s ptr old_size increment hp]
    split
    · split <;> exact ⟨rfl, rfl⟩
    · exact ⟨rfl, rfl⟩

/-- However `ts_resize` ends, `memory` and `size` are as they were. -/
theorem ts_resize_storage (ptr old_size new_size : Nat) (s : TempStorage) :
    (ts_resize ptr old_size new_size s).storage.memory = s.memory ∧
    (ts_resize ptr old_size new_size s).storage.size = s.size := by
  unfold ts_resize
  split
  · split
    · exact ⟨rfl, rfl⟩
    · split <;> exact ⟨rfl, rfl⟩
  · exact ⟨rfl, rfl⟩

/-- Every operation that returns leaves `memory` and `size` as they were. -/
theorem Op.next_frame (fuel : Nat) (op : Op) (s s' : TempStorage)
    (h : op.next fuel s = some s') : s'.memory = s.memory ∧ s'.size = s.size := by
  cases op with
  | alloc_aligned alignment size =>
    obtain ⟨o, ho, rfl⟩ := returned_storage_some _ _ h
    exact ts_alloc_aligned_storage fuel alignment size s o ho
  | alloc_unaligned size =>
    obtain ⟨o, ho, rfl⟩ := returned_storage_some _ _ h
    cases ho
    rw [ts_alloc_unaligned_storage]
    exact ⟨rfl, rfl⟩
  | expand ptr old_size increment =>
    obtain ⟨o, ho, rfl⟩ := returned_storage_some _ _ h
    cases ho
    exact ts_expand_storage ptr old_size increment s
  | resize ptr old_size new_size =>
    obtain ⟨o, ho, rfl⟩ := returned_storage_some _ _ h
    cases ho
    exact ts_resize_storage ptr old_size new_size s
  | reset =>
    simp only [Op.next, ts_reset, Option.some.injEq] at h
    subst h
    exact ⟨rfl, rfl⟩

theorem run_ops_frame (fuel : Nat) (ops : List Op) :
    ∀ s s' : TempStorage, run_ops fuel ops s = some s' →
      s'.memory = s.memory ∧ s'.size = s.size := by
  induction ops with
  | nil =>
    intro s s' h
    simp only [run_ops, Option.some.injEq] at h
    subst h
    exact ⟨rfl, rfl⟩
  | cons op ops ih =>
    intro s s' h
    unfold run_ops at h
    split at h
    · rename_i t ht
      obtain ⟨h1, h2⟩ := Op.next_frame fuel op s t ht
      obtain ⟨h3, h4⟩ := ih t s' h
      exact ⟨h3.trans h1, h4.trans h2⟩
    · cases h

/-- C11: after `ts_init` and any sequence of operations that all return,
`ts_reset` sets `used` to `0` and leaves `memory` and `size` unchanged; the
storage is then the one `ts_init` left, so a subsequent `ts_alloc_unaligned size`
or `ts_alloc_aligned alignment size` has the outcome (the returned address
included) of the same call made as the first allocation after `ts_init`. -/
theorem ts_reset_replays_first (page_size : Int) (mmap : Nat → Nat) (requested fuel : Nat)
    (ops : List Op) (s : TempStorage)
    (h : run_ops fuel ops (ts_init page_size mmap requested).2 = some s) :
    (ts_reset s).used = 0 ∧ (ts_reset s).memory = s.memory ∧ (ts_reset s).size = s.size ∧
    (∀ size, ts_alloc_unaligned size (ts_reset s)
      = ts_alloc_unaligned size (ts_init page_size mmap requested).2) ∧
    (∀ fuel' alignment size, ts_alloc_aligned fuel' alignment size (ts_reset s)
      = ts_alloc_aligned fuel' alignment size (ts_init page_size mmap requested).2) := by
  obtain ⟨hm, hs⟩ := run_ops_frame fuel ops _ s h
  have hreset : ts_reset s = (ts_init page_size mmap requested).2 := by
    cases s
    simp only [ts_reset] at hm hs ⊢
    subst hm hs
    rfl
  refine ⟨rfl, rfl, rfl, fun size => by rw [hreset], fun fuel' alignment size => by rw [hreset]⟩

/-- Witness for `ts_reset_replays_first`: after two allocations, a resize and an
expand on a storage of 12288 bytes at `65536`, a reset followed by a 16-aligned
request of 24 bytes returns `65536`, as the first allocation would. -/
theorem ts_reset_replays_first_witness :
    run_ops 1 [.alloc_unaligned 100, .alloc_aligned 8 50, .resize 65640 50 80, .expand 65640 80 3]
        (ts_init 4096 (fun _ => 65536) 10000).2
      = some { memory := 65536, size := 12288, used := 187 } ∧
    ts_alloc_aligned 1 16 24 (ts_reset { memory := 65536, size := 12288, used := 187 })
      = some (.returned 65536 { memory := 65536, size := 12288, used := 24 }) ∧
    ts_alloc_aligned 1 16 24 (ts_reset { memory := 65536, size := 12288, used := 187 })
      = ts_alloc_aligned 1 16 24 (ts_init 4096 (fun _ => 65536) 10000).2 :=
  ⟨by decide, by decide,
    (ts_reset_replays_first 4096 (fun _ => 65536) 10000 1
      [.alloc_unaligned 100, .alloc_aligned 8 50, .resize 65640 50 80, .expand 65640 80 3]
      { memory := 65536, size := 12288, used := 187 } (by decide)).2.2.2.2 1 16 24⟩

/-! ## The end-to-end scenario -/

/-- C12: with a page size of 4096 and the region mapped at `base`, `ts_init 10000`
succeeds with capacity 12288 and `used = 0`; `ts_alloc_unaligned 100` returns
`base`; `ts_alloc_unaligned 50` returns `base + 100`; `ts_resize (base + 100) 50
200` passes the tail check, returns `base + 100` and leaves `used = 300`; and
`ts_alloc_unaligned 12000` then exits, because `300 + 12000 = 12300 > 12288`. -/
theorem scenario_10000 (mmap : Nat → Nat) (hbase : mmap 16384 + 12288 < 2 ^ 64) :
    ts_init 4096 mmap 10000
      = (true, { memory := mmap 16384, size := 12288, used := 0 }) ∧
    ts_alloc_unaligned 100 { memory := mmap 16384, size := 12288, used := 0 }
      = .returned (mmap 16384) { memory := mmap 16384, size := 12288, used := 100 } ∧
    ts_alloc_unaligned 50 { memory := mmap 16384, size := 12288, used := 100 }
      = .returned (mmap 16384 + 100) { memory := mmap 16384, size := 12288, used := 150 } ∧
    ts_resize (mmap 16384 + 100) 50 200 { memory := mmap 16384, size := 12288, used := 150 }
      = .returned (mmap 16384 + 100) { memory := mmap 16384, size := 12288, used := 300 } ∧
    ts_alloc_unaligned 12000 { memory := mmap 16384, size := 12288, used := 300 }
      = .exited 12300 12288 { memory := mmap 16384, size := 12288, used := 12300 } := by
  generalize hb : mmap 16384 = base at hbase
  have hinit : ts_init 4096 mmap 10000 = (true, { memory := base, size := 12288, used := 0 }) := by
    have hu : u64_of_int 4096 = 4096 := by decide
    have h1 : add64 12288 4096 = 16384 := by decide
    have h2 : mul64 (add64 (10000 / 4096) 1) 4096 = 12288 := by decide
    have h3 : 10000 % 4096 ≠ 0 := by decide
    have h4 : base ≠ MAP_FAILED := by
      unfold MAP_FAILED; omega
    simp only [ts_init, hu, h3, ne_eq, not_false_eq_true, if_true, h2, h1, hb, h4, decide_True]
  have ha0 : add64 base 0 = base := Nat.mod_eq_of_lt (by omega)
  have ha1 : add64 base 100 = base + 100 := Nat.mod_eq_of_lt (by omega)
  have htail : base + 100 = sub64 (add64 base 150) 50 := by
    simp only [add64, sub64]; omega
  have e1 : add64 0 100 = 100 := by decide
  have e2 : add64 100 50 = 150 := by decide
  have e3 : add64 150 (sub64 200 50) = 300 := by decide
  have e4 : add64 300 12000 = 12300 := by decide
  refine ⟨hinit, ?_, ?_, ?_, ?_⟩
  · simp only [ts_alloc_unaligned, ts_assert_within_bounds, e1]
    rw [if_neg (by decide)]
    simp only [Outcome.bind, ha0]
  · simp only [ts_alloc_unaligned, ts_assert_within_bounds, e2]
    rw [if_neg (by decide)]
    simp only [Outcome.bind, ha1]
  · simp only [ts_resize, ← htail, if_true, e3]
    rw [if_pos (by decide)]
  · simp only [ts_alloc_unaligned, ts_assert_within_bounds, e4]
    rw [if_pos (by decide)]
    rfl

/-- Witness for `scenario_10000`: the region mapped at `65536`. -/
theorem scenario_10000_witness :
    ts_init 4096 (fun _ => 65536) 10000
      = (true, { memory := 65536, size := 12288, used := 0 }) ∧
    ts_alloc_unaligned 12000 { memory := 65536, size := 12288, used := 300 }
      = .exited 12300 12288 { memory := 65536, size := 12288, used := 12300 } :=
  ⟨(scenario_10000 (fun _ => 65536) (by decide)).1,
    (scenario_10000 (fun _ => 65536) (by decide)).2.2.2.2⟩

/-! ## Shrinking the tail -/

/-- C13 (as stated, refuted): with `used = 10` of a capacity of 4096 and `base =
65536`, the pointer `base + 11` passes the tail check of `ts_resize` for
`old_size = 2 ^ 64 - 1` (the pointer subtraction wraps).  Shrinking to
`new_size = 2 ^ 64 - 5` leaves `used = 6`, which is not `(p - base) + new_size`
and is below the start offset `p - base = 11`; shrinking to `new_size = 0` leaves
`used = 11`, the subtraction `10 - (2 ^ 64 - 1)` having wrapped below zero. -/
theorem ts_resize_beyond_used_shrinks :
    (10 ≤ 4096 ∧ 65536 ≤ 65547 ∧ 2 ^ 64 - 5 < 2 ^ 64 - 1) ∧
    ts_resize 65547 (2 ^ 64 - 1) (2 ^ 64 - 5) { memory := 65536, size := 4096, used := 10 }
      = .returned 65547 { memory := 65536, size := 4096, used := 6 } ∧
    6 ≠ (65547 - 65536) + (2 ^ 64 - 5) ∧ 6 < 65547 - 65536 ∧
    ts_resize 65547 (2 ^ 64 - 1) 0 { memory := 65536, size := 4096, used := 10 }
      = .returned 65547 { memory := 65536, size := 4096, used := 11 } ∧
    10 < (2 ^ 64 - 1) - 0 := by
  decide

/-- C13 (amended): for every storage with `used ≤ capacity`, every pointer `p`
with `base ≤ p ≤ base + used` and every `new_size < old_size`: if `ts_resize p
old_size new_size` passes its tail check, then `old_size = used - (p - base)`, the
call returns `p` and the resulting `used` equals `(p - base) + new_size`; the
subtracted amount `old_size - new_size` is at most `used`, so nothing wraps and
`used` stays at or above the start offset `p - base`; a shrink to `new_size = 0`
leaves `used = p - base`. -/
theorem ts_resize_shrink (s : TempStorage) (p old_size new_size : Nat)
    (hcap : s.size < 2 ^ 64) (hused : s.used ≤ s.size) (hold : old_size < 2 ^ 64)
    (hlo : s.memory ≤ p) (hhi : p ≤ s.memory + s.used) (hp : p < 2 ^ 64)
    (hlt : new_size < old_size)
    (htail : p = sub64 (add64 s.memory s.used) old_size) :
    ts_resize p old_size new_size s
      = .returned p { memory := s.memory, size := s.size, used := (p - s.memory) + new_size } ∧
    old_size = s.used - (p - s.memory) ∧
    old_size - new_size ≤ s.used ∧
    p - s.memory ≤ (p - s.memory) + new_size ∧
    (new_size = 0 → (p - s.memory) + new_size = p - s.memory) := by
  have hold' : old_size = s.used - (p - s.memory) ∧ old_size ≤ s.used := by
    simp only [add64, sub64] at htail
    omega
  have hsub : sub64 s.used (sub64 old_size new_size) = (p - s.memory) + new_size := by
    simp only [sub64]; omega
  refine ⟨?_, hold'.1, by omega, by omega, fun h => by omega⟩
  have hng : ¬ new_size > old_size := by omega
  simp only [ts_resize, ← htail, if_true, hng, if_false, hlt, hsub]

/-- Witness for `ts_resize_shrink`: with `used = 150`, shrinking the 50-byte tail at
`base + 100` to 20 bytes leaves `used = 120`. -/
theorem ts_resize_shrink_witness :
    ts_resize 65636 50 20 { memory := 65536, size := 12288, used := 150 }
      = .returned 65636 { memory := 65536, size := 12288, used := 120 } :=
  (ts_resize_shrink { memory := 65536, size := 12288, used := 150 } 65636 50 20
    (by decide) (by decide) (by decide) (by decide) (by decide) (by decide) (by decide)
    (by decide)).1

/-! ## The alignment assertion -/

theorem and_pred_eq_zero (a : Nat) (h : a &&& (a - 1) = 0) : a = 0 ∨ ∃ k, a = 2 ^ k := by
  induction a using Nat.strong_induction_on with
  | _ a ih =>
    have hdiv : a / 2 &&& (a - 1) / 2 = 0 := by
      rw [← Nat.and_div_two, h]
    rcases Nat.eq_zero_or_pos a with h0 | hpos
    · exact Or.inl h0
    · right
      rcases Nat.mod_two_eq_zero_or_one a with heven | hodd
      · have e1 : (a - 1) / 2 = a / 2 - 1 := by omega
        rw [e1] at hdiv
        rcases ih (a / 2) (by omega) hdiv with hz | ⟨k, hk⟩
        · omega
        · refine ⟨k + 1, ?_⟩
          rw [Nat.pow_succ, ← hk]
          omega
      · have e1 : (a - 1) / 2 = a / 2 := by omega
        rw [e1, Nat.and_self] at hdiv
        exact ⟨0, by omega⟩

theorem pow2_lt_word (k : Nat) (h : 2 ^ k < 2 ^ 64) : k < 64 :=
  (Nat.pow_lt_pow_iff_right (by decide)).mp h

/-- The assertion of `ts_align` passes for the 64-bit alignments that are `0` or a
power of two, and for no other. -/
theorem ts_align_assert_iff (s : TempStorage) (used align : Nat) (h64 : align < 2 ^ 64) :
    (∃ o, ts_align used align s = .returned o s)
      ↔ align = 0 ∨ ∃ k, k < 64 ∧ align = 2 ^ k := by
  have hpass : (∃ o, ts_align used align s = .returned o s)
      ↔ align &&& sub64 align 1 = 0 := by
    unfold ts_align
    constructor
    · intro ⟨o, ho⟩
      by_contra hc
      rw [if_neg hc] at ho
      cases ho
    · intro hc
      rw [if_pos hc]
      exact ⟨_, rfl⟩
  rw [hpass]
  constructor
  · intro h
    rcases Nat.eq_zero_or_pos align with h0 | hpos
    · exact Or.inl h0
    · have hsub : sub64 align 1 = align - 1 := by
        simp only [sub64]; omega
      rw [hsub] at h
      rcases and_pred_eq_zero align h with hz | ⟨k, hk⟩
      · exact Or.inl hz
      · exact Or.inr ⟨k, pow2_lt_word k (hk ▸ h64), hk⟩
  · rintro (rfl | ⟨k, hk, rfl⟩)
    · exact Nat.zero_and _
    · obtain ⟨hpos, hle, -, -⟩ := pow2_bounds k hk
      have hsub : sub64 (2 ^ k) 1 = 2 ^ k - 1 := by
        simp only [sub64]; omega
      rw [hsub, Nat.and_pow_two_sub_one_eq_mod, Nat.mod_self]

/-- C14 (the code at the failing input): the alignment `0` is not a power of two,
yet the assertion of `ts_align` passes for it: `ts_align 3 0` returns (the offset
`2 ^ 64 - base`, of the address `0`), and `ts_alloc_aligned 0 16` goes on to the
bounds check, where it exits. -/
theorem ts_align_accepts_zero :
    (∀ k : Nat, (0 : Nat) ≠ 2 ^ k) ∧
    ts_align 3 0 { memory := 65536, size := 12288, used := 3 }
      = .returned (2 ^ 64 - 65536) { memory := 65536, size := 12288, used := 3 } ∧
    ts_alloc_aligned 1 0 16 { memory := 65536, size := 12288, used := 3 }
      = some (.exited (2 ^ 64 - 65536 + 16) 12288
          { memory := 65536, size := 12288, used := 2 ^ 64 - 65536 + 16 }) := by
  refine ⟨fun k h => ?_, by decide, by decide⟩
  have := Nat.pos_pow_of_pos k (by decide : 0 < 2)
  omega

/-! ## The offset computed by `ts_align` -/

/-- C16: for every base, every cursor value `used` and every power-of-two alignment
`2 ^ k` with `base + used + 2 ^ k` not exceeding the address range `2 ^ 64`,
`ts_align used (2 ^ k)` returns the smallest offset `o ≥ used` such that
`(base + o) mod 2 ^ k = 0`; the padding `o - used` is below `2 ^ k`, and `o = used`
when `base + used` is already aligned. -/
theorem ts_align_smallest (s : TempStorage) (used k : Nat) (hk : k < 64)
    (hrange : s.memory + used + 2 ^ k ≤ 2 ^ 64) :
    ∃ o, ts_align used (2 ^ k) s = .returned o s ∧
      used ≤ o ∧ (s.memory + o) % 2 ^ k = 0 ∧
      (∀ o', used ≤ o' → (s.memory + o') % 2 ^ k = 0 → o ≤ o') ∧
      o - used < 2 ^ k ∧
      ((s.memory + used) % 2 ^ k = 0 → o = used) := by
  obtain ⟨hpos, hle, -, -⟩ := pow2_bounds k hk
  rw [ts_align_pow2 s used k hk]
  have hadd : add64 s.memory used = s.memory + used := Nat.mod_eq_of_lt (by omega)
  have hlt := Nat.mod_lt (s.memory + used) hpos
  have hdm := Nat.div_add_mod (s.memory + used) (2 ^ k)
  by_cases hmod : (s.memory + used) % 2 ^ k = 0
  · have hptr : aligned_ptr s used (2 ^ k) = s.memory + used := by
      simp only [aligned_ptr, hadd, hmod, ne_eq, not_true_eq_false, if_false]
    have ho : sub64 (s.memory + used) s.memory = used := by
      simp only [sub64]; omega
    refine ⟨used, by rw [hptr, ho], Nat.le_refl _, hmod, fun o' h _ => h, by omega,
      fun _ => rfl⟩
  · have hup : add64 (s.memory + used) (2 ^ k - (s.memory + used) % 2 ^ k)
        = s.memory + used + (2 ^ k - (s.memory + used) % 2 ^ k) :=
      Nat.mod_eq_of_lt (by omega)
    have hptr : aligned_ptr s used (2 ^ k)
        = s.memory + used + (2 ^ k - (s.memory + used) % 2 ^ k) := by
      simp only [aligned_ptr, hadd, hmod, ne_eq, not_false_eq_true, if_true, hup]
    have ho : sub64 (s.memory + used + (2 ^ k - (s.memory + used) % 2 ^ k)) s.memory
        = used + (2 ^ k - (s.memory + used) % 2 ^ k) := by
      simp only [sub64]; omega
    have hmul : s.memory + (used + (2 ^ k - (s.memory + used) % 2 ^ k))
        = 2 ^ k * ((s.memory + used) / 2 ^ k + 1) := by
      rw [Nat.mul_add, Nat.mul_one]; omega
    refine ⟨used + (2 ^ k - (s.memory + used) % 2 ^ k), by rw [hptr, ho], by omega, ?_,
      fun o' hge hal => ?_, by omega, fun h => absurd h hmod⟩
    · rw [hmul]
      exact Nat.mul_mod_right _ _
    · obtain ⟨t, ht⟩ := Nat.dvd_of_mod_eq_zero hal
      have hq : (s.memory + used) / 2 ^ k < t := by
        by_contra hcon
        have : 2 ^ k * t ≤ 2 ^ k * ((s.memory + used) / 2 ^ k) :=
          Nat.mul_le_mul_left _ (by omega)
        omega
      have hstep : 2 ^ k * ((s.memory + used) / 2 ^ k + 1) ≤ 2 ^ k * t :=
        Nat.mul_le_mul_left _ hq
      omega

/-- Witness for `ts_align_smallest`: at base `65536` and `used = 3`, the alignment
16 gives the offset 16. -/
theorem ts_align_smallest_witness :
    ∃ o, ts_align 3 (2 ^ 4) { memory := 65536, size := 12288, used := 3 }
        = .returned o { memory := 65536, size := 12288, used := 3 } ∧ o = 16 := by
  obtain ⟨o, ho, -⟩ := ts_align_smallest { memory := 65536, size := 12288, used := 3 } 3 4
    (by decide) (by decide)
  refine ⟨o, ho, ?_⟩
  have h16 : ts_align 3 (2 ^ 4) { memory := 65536, size := 12288, used := 3 }
      = .returned 16 { memory := 65536, size := 12288, used := 3 } := by decide
  rw [h16] at ho
  cases ho
  rfl

/-! ## Tiling of the used prefix -/

/-- C17 (the code at the failing input): from a fresh storage of 4096 bytes,
`ts_alloc_unaligned 1` and `ts_alloc_unaligned (2 ^ 64 - 1)` both return; the
second range starts at offset 1 and has `2 ^ 64 - 1` bytes, but the new `used` is
`0`: the range does not end at the new `used`, and the final `used` is not the
sum `1 + (2 ^ 64 - 1)` of the sizes. -/
theorem run_grants_wraps :
    run_grants 1 [.unaligned 1, .unaligned (2 ^ 64 - 1)]
        { memory := 65536, size := 4096, used := 0 }
      = ([{ before := 0, ptr := 65536, size := 1, after := 1 },
          { before := 1, ptr := 65537, size := 2 ^ 64 - 1, after := 0 }],
         { memory := 65536, size := 4096, used := 0 }) ∧
    65537 + (2 ^ 64 - 1) ≠ 65536 + 0 ∧
    0 ≠ (0 + 1) + (0 + (2 ^ 64 - 1)) := by
  decide

/-- Where no sum wraps (power-of-two alignments, the storage in the lower half of
the address space, every size at most the capacity), the granted ranges tile the
used part: each starts at the previous `used` plus a non-negative padding and
ends at the new `used`, consecutive grants meet (`after` of one is `before` of
the next), and the final `used` is the initial one plus the sum of
`padding + size` over the grants. -/
theorem run_grants_tile (fuel : Nat) (calls : List AllocCall) :
    ∀ s : TempStorage, s.memory + s.size < 2 ^ 63 → s.used ≤ s.size →
      (∀ c ∈ calls, c.size ≤ s.size ∧ c.pow2) →
      (run_grants fuel calls s).2.memory = s.memory ∧
      (run_grants fuel calls s).2.size = s.size ∧
      (run_grants fuel calls s).2.used ≤ s.size ∧
      (∀ g ∈ (run_grants fuel calls s).1,
        s.memory + g.before ≤ g.ptr ∧ g.ptr + g.size = s.memory + g.after) ∧
      (∀ g, (run_grants fuel calls s).1.head? = some g → g.before = s.used) ∧
      (run_grants fuel calls s).1.Chain' (fun g1 g2 => g1.after = g2.before) ∧
      (run_grants fuel calls s).2.used
        = s.used + ((run_grants fuel calls s).1.map
            fun g => (g.ptr - (s.memory + g.before)) + g.size).sum := by
  induction calls with
  | nil =>
    intro s _ hused _
    simp [run_grants, hused]
  | cons c cs ih =>
    intro s hlow hused hcalls
    obtain ⟨hsize, hpow⟩ := hcalls c (List.mem_cons_self c cs)
    unfold run_grants
    split
    · rename_i p s' hrun
      obtain ⟨hm, hs, hu, hp, hend⟩ :=
        AllocCall.run_returned fuel c s s' p hlow hused hsize hpow hrun
      obtain ⟨im, is, iu, ig, ih0, ic, isum⟩ := ih s' (by rw [hm, hs]; exact hlow)
        (by rw [hs]; exact hu)
        (fun c' hc' => by rw [hs]; exact hcalls c' (List.mem_cons_of_mem c hc'))
      rw [hm] at ig isum im
      rw [hs] at is iu
      refine ⟨im, is, iu, ?_, ?_, ?_, ?_⟩
      · intro g hg
        rcases List.mem_cons.mp hg with rfl | hg
        · exact ⟨hp, hend⟩
        · exact ig g hg
      · intro g hg
        simp only [List.head?_cons, Option.some.injEq] at hg
        subst hg
        rfl
      · rw [List.chain'_cons']
        exact ⟨fun g hg => (ih0 g hg).symm, ic⟩
      · simp only [List.map_cons, List.sum_cons]
        rw [isum]
        omega
    · simp [hused]

/-! ## The figures of the diagnostic -/

/-- C18 (as stated, refuted): with `used = 300` of a capacity of 12288,
`ts_alloc_unaligned 12000` and `ts_expand (base + 250) 50 12000` exit with the
figures `requested 12300` and `allocated size 12288`; and with `used = 3`,
`ts_alloc_aligned 16 12280` exits with `requested 12296`.  The 'requested' figure
is not the number of bytes the call asked for.  Nor is it when the cursor was `0`
and the two coincide as 64-bit values, once they reach `2 ^ 63`: on a fresh
storage of 4096 bytes `ts_alloc_unaligned (2 ^ 63)` exits with the figure
`requested -9223372036854775808`, as `%lld` prints it. -/
theorem exit_reports_new_cursor :
    (ts_alloc_unaligned 12000 { memory := 65536, size := 12288, used := 300 }).diagnostic
      = some (12300, 12288) ∧
    (ts_expand 65786 50 12000 { memory := 65536, size := 12288, used := 300 }).diagnostic
      = some (12300, 12288) ∧
    (ts_alloc_aligned 1 16 12280 { memory := 65536, size := 12288, used := 3 }).map
        Outcome.diagnostic
      = some (some (12296, 12288)) ∧
    (12300 : Int) ≠ 12000 ∧ (12296 : Int) ≠ 12280 ∧
    (ts_alloc_unaligned (2 ^ 63) { memory := 65536, size := 4096, used := 0 }).diagnostic
      = some (-9223372036854775808, 4096) ∧
    (-9223372036854775808 : Int) ≠ ((2 ^ 63 : Nat) : Int) := by
  decide

theorem lld_small (v : Nat) (h : v < 2 ^ 63) : lld v = (v : Int) := by
  have h1 : v % 2 ^ 64 = v := Nat.mod_eq_of_lt (by omega)
  simp only [lld, h1, h, if_true]

theorem bounds_bind_exited (n : Nat) (t : TempStorage) (f : TempStorage → Nat)
    (r a : Nat) (s' : TempStorage)
    (h : ((ts_assert_within_bounds n t).bind fun _ u => .returned (f u) u)
      = .exited r a s') : r = n ∧ a = t.size ∧ t.size < n ∧ s' = t := by
  unfold ts_assert_within_bounds at h
  split at h
  · rename_i hgt
    simp only [Outcome.bind, Outcome.exited.injEq] at h
    obtain ⟨h1, h2, h3⟩ := h
    exact ⟨h1.symm, h2.symm, hgt, h3.symm⟩
  · simp only [Outcome.bind] at h
    cases h

theorem diagnostic_some {α : Type} (o : Outcome α) (req alloc : Int)
    (h : o.diagnostic = some (req, alloc)) :
    ∃ r a s', o = .exited r a s' ∧ req = lld r ∧ alloc = lld a := by
  cases o with
  | returned v s => simp [Outcome.diagnostic] at h
  | assert_failed s => simp [Outcome.diagnostic] at h
  | exited r a s' =>
    simp only [Outcome.diagnostic, Option.some.injEq, Prod.mk.injEq] at h
    exact ⟨r, a, s', rfl, h.1.symm, h.2.symm⟩

/-- The values handed to `fprintf` when one of the three checked calls exits: the
cursor just stored in `used`, and the capacity. -/
theorem exit_values (s : TempStorage) :
    (∀ size r a s', ts_alloc_unaligned size s = .exited r a s' →
      r = add64 s.used size ∧ a = s.size ∧ s.size < r ∧ s'.used = r) ∧
    (∀ fuel alignment size r a s',
      ts_alloc_aligned fuel alignment size s = some (.exited r a s') →
      ∃ aligned, ts_align s.used alignment s = .returned aligned s ∧
        r = add64 aligned size ∧ a = s.size ∧ s.size < r ∧ s'.used = r) ∧
    (∀ ptr old_size increment r a s', ts_expand ptr old_size increment s = .exited r a s' →
      r = add64 s.used increment ∧ a = s.size ∧ s.size < r ∧ s'.used = r) := by
  have hun : ∀ size r a s', ts_alloc_unaligned size s = .exited r a s' →
      r = add64 s.used size ∧ a = s.size ∧ s.size < r ∧ s'.used = r := by
    intro size r a s' h
    obtain ⟨h1, h2, h3, h4⟩ := bounds_bind_exited _ _ _ r a s' h
    subst h1 h4
    exact ⟨rfl, h2, h3, rfl⟩
  refine ⟨hun, ?_, ?_⟩
  · intro fuel alignment size r a s' h
    cases fuel with
    | zero => simp [ts_alloc_aligned] at h
    | succ fuel =>
      rw [ts_alloc_aligned_succ, Option.some.injEq] at h
      unfold ts_align at h ⊢
      split at h
      · rename_i hc
        rw [if_pos hc]
        obtain ⟨h1, h2, h3, h4⟩ := bounds_bind_exited _ _ _ r a s' h
        subst h1 h4
        exact ⟨_, rfl, rfl, h2, h3, rfl⟩
      · cases h
  · intro ptr old_size increment r a s' h
    by_cases hp : ptr = 0
    · subst hp
      simp only [ts_expand, ne_eq, not_true_eq_false, if_false, bind_returned] at h
      exact hun increment r a s' h
    · rw [ts_expand_non_null s ptr old_size increment hp] at h
      split at h
      · split at h
        · rename_i hgt
          simp only [Outcome.exited.injEq] at h
          obtain ⟨h1, h2, h3⟩ := h
          subst h1 h2 h3
          exact ⟨rfl, rfl, hgt, rfl⟩
        · cases h
      · cases h

/-- C18 (amended): whenever `ts_alloc_unaligned size`, `ts_alloc_aligned alignment
size` or `ts_expand p old_size increment` exits for exceeding the capacity, with
the capacity and the sum `used + size` (`aligned + size` with `aligned` the offset
from `ts_align`, respectively `used + increment`) below `2 ^ 63`, the 'requested'
figure of the diagnostic is that sum, the cursor value the call has just stored
in `used` and not the number of bytes asked for, and the 'allocated size' figure
is the capacity. -/
theorem exit_figures (s : TempStorage) (hcap : s.size < 2 ^ 63) :
    (∀ size req alloc, (ts_alloc_unaligned size s).diagnostic = some (req, alloc) →
      s.used + size < 2 ^ 63 →
      req = ((s.used + size : Nat) : Int) ∧ alloc = (s.size : Int) ∧
        s.size < s.used + size ∧ (ts_alloc_unaligned size s).storage.used = s.used + size) ∧
    (∀ fuel alignment size o req alloc, ts_alloc_aligned fuel alignment size s = some o →
      o.diagnostic = some (req, alloc) →
      ∃ aligned, ts_align s.used alignment s = .returned aligned s ∧
        (aligned + size < 2 ^ 63 →
          req = ((aligned + size : Nat) : Int) ∧ alloc = (s.size : Int) ∧
            s.size < aligned + size ∧ o.storage.used = aligned + size)) ∧
    (∀ ptr old_size increment req alloc,
      (ts_expand ptr old_size increment s).diagnostic = some (req, alloc) →
      s.used + increment < 2 ^ 63 →
      req = ((s.used + increment : Nat) : Int) ∧ alloc = (s.size : Int) ∧
        s.size < s.used + increment ∧
        (ts_expand ptr old_size increment s).storage.used = s.used + increment) := by
  obtain ⟨hun, hal, hex⟩ := exit_values s
  refine ⟨?_, ?_, ?_⟩
  · intro size req alloc h hsum
    obtain ⟨r, a, s', ho, rfl, rfl⟩ := diagnostic_some _ _ _ h
    obtain ⟨h1, h2, h3, h4⟩ := hun size r a s' ho
    have hadd : add64 s.used size = s.used + size := Nat.mod_eq_of_lt (by omega)
    rw [hadd] at h1
    subst h1 h2
    rw [ho]
    exact ⟨lld_small _ hsum, lld_small _ hcap, h3, h4⟩
  · intro fuel alignment size o req alloc ho h
    obtain ⟨r, a, s', rfl, rfl, rfl⟩ := diagnostic_some _ _ _ h
    obtain ⟨aligned, hal1, h1, h2, h3, h4⟩ := hal fuel alignment size r a s' ho
    refine ⟨aligned, hal1, fun hsum => ?_⟩
    have hadd : add64 aligned size = aligned + size := Nat.mod_eq_of_lt (by omega)
    rw [hadd] at h1
    subst h1 h2
    exact ⟨lld_small _ hsum, lld_small _ hcap, h3, h4⟩
  · intro ptr old_size increment req alloc h hsum
    obtain ⟨r, a, s', ho, rfl, rfl⟩ := diagnostic_some _ _ _ h
    obtain ⟨h1, h2, h3, h4⟩ := hex ptr old_size increment r a s' ho
    have hadd : add64 s.used increment = s.used + increment := Nat.mod_eq_of_lt (by omega)
    rw [hadd] at h1
    subst h1 h2
    rw [ho]
    exact ⟨lld_small _ hsum, lld_small _ hcap, h3, h4⟩

/-- Witness for `exit_figures`: the exit of `ts_alloc_unaligned 12000` at
`used = 300` prints `requested 12300` (`300 + 12000`) and `allocated size 12288`. -/
theorem exit_figures_witness :
    (ts_alloc_unaligned 12000 { memory := 65536, size := 12288, used := 300 }).diagnostic
      = some (12300, 12288) ∧
    ((12300 : Int) = ((300 + 12000 : Nat) : Int) ∧ (12288 : Int) = ((12288 : Nat) : Int) ∧
      12288 < 300 + 12000 ∧
      (ts_alloc_unaligned 12000 { memory := 65536, size := 12288, used := 300 }).storage.used
        = 300 + 12000) :=
  ⟨by decide, (exit_figures { memory := 65536, size := 12288, used := 300 } (by decide)).1
    12000 12300 12288 (by decide) (by decide)⟩

/-! ## `ts_expand` against `ts_resize` and `ts_alloc_aligned 1` against `ts_alloc_unaligned` -/

/-- C19 (as stated, refuted): with `base = 65536`, `used = 100` and
`old_size = 65636`, the pointer `base + used - old_size` is the null pointer.
`ts_expand` then allocates afresh and returns `base + 100`, while `ts_resize`
passes its tail check and returns the null pointer. -/
theorem ts_resize_null_differs_from_expand :
    (0 = sub64 (add64 65536 100) 65636 ∧ 100 + 10 ≤ 12288 ∧ 65636 + 10 < 2 ^ 64) ∧
    ts_expand 0 65636 10 { memory := 65536, size := 12288, used := 100 }
      = .returned 65636 { memory := 65536, size := 12288, used := 110 } ∧
    ts_resize 0 65636 (65636 + 10) { memory := 65536, size := 12288, used := 100 }
      = .returned 0 { memory := 65536, size := 12288, used := 110 } := by
  decide

/-- C19 (amended): for every storage with a 64-bit capacity, every non-null pointer
`p` with `p = base + used - old_size` and every increment with
`used + increment ≤ capacity` and `old_size + increment < 2 ^ 64`,
`ts_expand p old_size increment` and `ts_resize p old_size (old_size + increment)`
have the same outcome: both return `p` and leave `used + increment`. -/
theorem ts_expand_eq_resize (s : TempStorage) (p old_size increment : Nat)
    (hcap : s.size < 2 ^ 64) (hp : p ≠ 0)
    (htail : p = sub64 (add64 s.memory s.used) old_size)
    (hfit : s.used + increment ≤ s.size) (hsum : old_size + increment < 2 ^ 64) :
    ts_expand p old_size increment s = ts_resize p old_size (old_size + increment) s ∧
    ts_expand p old_size increment s
      = .returned p { memory := s.memory, size := s.size, used := s.used + increment } := by
  have hexp := (ts_expand_no_wrap s p old_size increment hp (by omega)).1 htail hfit
  refine ⟨?_, hexp⟩
  rw [hexp]
  rcases Nat.eq_zero_or_pos increment with h0 | hpos
  · subst h0
    simp only [ts_resize, ← htail, if_true, Nat.add_zero, gt_iff_lt, Nat.lt_irrefl, if_false]
  · have hgrow : add64 s.used (sub64 (old_size + increment) old_size) = s.used + increment := by
      simp only [add64, sub64]; omega
    have hgt : old_size + increment > old_size := by omega
    simp only [ts_resize, ← htail, if_true, hgt, hgrow]

/-- Witness for `ts_expand_eq_resize`: growing the 50-byte tail at `base + 100` by
30 bytes, either way, returns `base + 100` and leaves `used = 180`. -/
theorem ts_expand_eq_resize_witness :
    ts_expand 65636 50 30 { memory := 65536, size := 12288, used := 150 }
      = ts_resize 65636 50 (50 + 30) { memory := 65536, size := 12288, used := 150 } ∧
    ts_expand 65636 50 30 { memory := 65536, size := 12288, used := 150 }
      = .returned 65636 { memory := 65536, size := 12288, used := 180 } :=
  ts_expand_eq_resize { memory := 65536, size := 12288, used := 150 } 65636 50 30
    (by decide) (by decide) (by decide) (by decide) (by decide)

/-- C20: for every storage whose cursor is a 64-bit value and every size,
`ts_align used 1` is `used`, and `ts_alloc_aligned 1 size` is decided by the first
iteration of its loop (any positive fuel) with the outcome of
`ts_alloc_unaligned size`: the same returned address, the same resulting storage,
and the same exit with the same figures. -/
theorem ts_alloc_aligned_one (s : TempStorage) (size fuel : Nat) (hused : s.used < 2 ^ 64) :
    ts_align s.used 1 s = .returned s.used s ∧
    ts_alloc_aligned (fuel + 1) 1 size s = some (ts_alloc_unaligned size s) := by
  have h1 : sub64 1 1 = 0 := by decide
  have hback : sub64 (add64 s.memory s.used) s.memory = s.used := by
    simp only [add64, sub64]; omega
  have halign : ts_align s.used 1 s = .returned s.used s := by
    simp only [ts_align, h1, Nat.and_zero, ne_eq, not_true_eq_false, if_false, if_true, hback]
  refine ⟨halign, ?_⟩
  rw [ts_alloc_aligned_succ, halign]
  rfl

/-- Witness for `ts_alloc_aligned_one`: with `used = 3`, a 10-byte request with
alignment 1 returns `base + 3` in one iteration, as the unaligned request does. -/
theorem ts_alloc_aligned_one_witness :
    ts_alloc_aligned 1 1 10 { memory := 65536, size := 12288, used := 3 }
      = some (ts_alloc_unaligned 10 { memory := 65536, size := 12288, used := 3 }) ∧
    ts_alloc_unaligned 10 { memory := 65536, size := 12288, used := 3 }
      = .returned 65539 { memory := 65536, size := 12288, used := 13 } :=
  ⟨(ts_alloc_aligned_one { memory := 65536, size := 12288, used := 3 } 10 0 (by decide)).2,
    by decide⟩

/-! ## Concurrent allocation -/

end Ts
